import Mathlib

/-!
Verification of the Atom feed deserializer (`src/feed.rs`) against its
natural-language specification.

The input byte stream is consumed through a pull-parsing cursor (the
external `quick_xml::Reader`, configured with `trim_text(true)` and
`expand_empty_elements(true)`).  We embed the cursor shallowly as the
list of structural events it would deliver: element starts (with tag and
attributes), element ends, text runs, and a distinguished `Bad` event
standing for a cursor read that fails with a malformed-markup error.
Reading past the end of the list corresponds to the `Event::Eof` event.

`Feed::read_from` and `Feed::from_xml` (the Feed builder loop) are
translated line by line from `src/feed.rs`.  The remaining pieces of the
crate (the error enum from `error.rs`, `util::atom_text`, and the nested
builders for `Person`, `Category`, `Link`, `Generator`, `Entry`) are not
under `src/`; they are modelled from the specification, as documented on
each definition.

Well-formed documents are represented as element/text trees (`Node`);
`flatten` produces the event stream the cursor would deliver for such a
tree.  Every recursive event consumer takes a fuel argument that strictly
decreases on each call; the top-level entry points instantiate the fuel
with one more than the stream length, which is always sufficient because
each step consumes at least one event.
-/

namespace Atom

/-- An attribute list as delivered by the cursor: key/value pairs. -/
abbrev Attrs := List (String × String)

/-- A structural event delivered by the cursor (quick_xml `Event`),
after self-closing expansion and whitespace trimming.  `Bad` stands for
a cursor read that fails with a malformed-markup error; end-of-stream is
represented by running off the end of the event list. -/
inductive Ev where
  | Start (name : String) (attrs : Attrs)
  | End (name : String)
  | Text (s : String)
  | Bad
deriving DecidableEq

/-- Modelled from the spec: the closed error taxonomy of `error.rs`
(not under `src/`).  `Xml` is the malformed-markup error wrapping a
tokenizer failure, `InvalidStartTag` the invalid-root error, and `Eof`
the truncated-document error. -/
inductive Error where
  | Xml
  | InvalidStartTag
  | Eof
deriving DecidableEq

/-- A well-formed XML subtree: an element with tag, attributes and
children, or a text run.  Used to state well-formedness hypotheses. -/
inductive Node where
  | elem (name : String) (attrs : Attrs) (children : List Node)
  | txt (s : String)

mutual

/-- The event stream the cursor delivers for one well-formed subtree. -/
def flatten : Node → List Ev
  | .txt s => [.Text s]
  | .elem n a cs => .Start n a :: (flattenF cs ++ [.End n])

/-- The event stream the cursor delivers for a forest of subtrees. -/
def flattenF : List Node → List Ev
  | [] => []
  | n :: ns => flatten n ++ flattenF ns

end

mutual

/-- All text runs of a subtree, in document order, concatenated. -/
def textOfNode : Node → String
  | .txt s => s
  | .elem _ _ cs => textOfForest cs

/-- All text runs of a forest, in document order, concatenated. -/
def textOfForest : List Node → String
  | [] => ""
  | n :: ns => textOfNode n ++ textOfForest ns

end

/-- Look up an attribute value by name (first binding wins). -/
def findAttr (key : String) (a : Attrs) : Option String :=
  (a.find? (fun p => p.1 = key)).map (·.2)

/-- Modelled from the spec: the `Person` entity of `person.rs` (not
under `src/`): required `name` text, optional `uri` and `email`. -/
structure Person where
  name : String := ""
  uri : Option String := none
  email : Option String := none
deriving DecidableEq

/-- Modelled from the spec: the `Category` entity of `category.rs` (not
under `src/`): required `term` attribute, optional `scheme` and `label`
attributes. -/
structure Category where
  term : String := ""
  scheme : Option String := none
  label : Option String := none
deriving DecidableEq

/-- Modelled from the spec: the `Link` entity of `link.rs` (not under
`src/`): required `href` attribute, the rest optional attributes. -/
structure Link where
  href : String := ""
  rel : Option String := none
  mediaType : Option String := none
  hreflang : Option String := none
  title : Option String := none
  length : Option String := none
deriving DecidableEq

/-- Modelled from the spec: the `Generator` entity of `generator.rs`
(not under `src/`): required name/text content, optional `uri` and
`version` attributes. -/
structure Generator where
  value : String := ""
  uri : Option String := none
  version : Option String := none
deriving DecidableEq

/-- Modelled from the spec: a text-bearing content leaf of `content.rs`
(not under `src/`): resolved text plus the content-model attribute. -/
structure Content where
  value : String := ""
  ctype : Option String := none
deriving DecidableEq

/-- Modelled from the spec: the `Entry` entity of `entry.rs` (not under
`src/`). -/
structure Entry where
  title : String := ""
  id : String := ""
  updated : String := ""
  authors : List Person := []
  categories : List Category := []
  contributors : List Person := []
  links : List Link := []
  summary : Option String := none
  content : Option Content := none
  published : Option String := none
  rights : Option String := none
  source : Option String := none
deriving DecidableEq

/-- The `Feed` entity, translated from the struct in `src/feed.rs`
(lines 19-46); `Default` initializes every field empty/absent. -/
structure Feed where
  title : String := ""
  id : String := ""
  updated : String := ""
  authors : List Person := []
  categories : List Category := []
  contributors : List Person := []
  generator : Option Generator := none
  icon : Option String := none
  links : List Link := []
  logo : Option String := none
  rights : Option String := none
  subtitle : Option String := none
  entries : List Entry := []
deriving DecidableEq

/-- Consume one complete forest of subtrees up to (and including) the
first element-end event at the current nesting level, rebuilding the
consumed subtrees.  This is the shared event-consumption discipline of
every subtree consumer in the crate: nested builders, the text
resolver, and the skip of unrecognized elements all consume exactly
these events, fail with the truncated-document error at end-of-stream
and with the malformed-markup error on a failing cursor read. -/
def readSubtree : Nat → List Ev → Except Error (List Node × List Ev)
  | 0, _ => .error .Eof
  | _ + 1, [] => .error .Eof
  | _ + 1, .Bad :: _ => .error .Xml
  | _ + 1, .End _ :: rest => .ok ([], rest)
  | f + 1, .Text s :: rest =>
    match readSubtree f rest with
    | .error e => .error e
    | .ok (ns, r) => .ok (.txt s :: ns, r)
  | f + 1, .Start n a :: rest =>
    match readSubtree f rest with
    | .error e => .error e
    | .ok (cs, r1) =>
      match readSubtree f r1 with
      | .error e => .error e
      | .ok (ns, r2) => .ok (.elem n a cs :: ns, r2)

/-- Modelled from the spec: `util::atom_text` (not under `src/`), the
text resolver of section 4.3: invoked just inside a leaf element, it
accumulates the text runs up to the element's matching end and returns
the resolved payload; a present-but-empty element resolves to the empty
string, never to the absent state. -/
def atom_text (fuel : Nat) (c : List Ev) : Except Error (Option String × List Ev) :=
  match readSubtree fuel c with
  | .error e => .error e
  | .ok (kids, r) => .ok (some (textOfForest kids), r)

/-- Modelled from the spec: the `Person` builder value as a pure
function of the element's consumed child subtrees (uniform builder
algorithm of section 4.2; `name`, `uri`, `email` are leaf text fields,
last occurrence wins, unrecognized children are ignored). -/
def personStep (p : Person) : Node → Person
  | .txt _ => p
  | .elem n _ cs =>
    if n = "name" then { p with name := textOfForest cs }
    else if n = "uri" then { p with uri := some (textOfForest cs) }
    else if n = "email" then { p with email := some (textOfForest cs) }
    else p

/-- Modelled from the spec: the `Person` entity built from its start
attributes and child subtrees. -/
def personFromSubtree (_ : Attrs) (kids : List Node) : Person :=
  kids.foldl personStep {}

/-- Modelled from the spec: the `Category` entity is populated from the
start tag's attributes only (`term` required, `scheme` and `label`
optional); child content is consumed but ignored. -/
def categoryFromSubtree (a : Attrs) (_ : List Node) : Category :=
  { term := (findAttr "term" a).getD ""
    scheme := findAttr "scheme" a
    label := findAttr "label" a }

/-- Modelled from the spec: the `Link` entity is populated from the
start tag's attributes only. -/
def linkFromSubtree (a : Attrs) (_ : List Node) : Link :=
  { href := (findAttr "href" a).getD ""
    rel := findAttr "rel" a
    mediaType := findAttr "type" a
    hreflang := findAttr "hreflang" a
    title := findAttr "title" a
    length := findAttr "length" a }

/-- Modelled from the spec: the `Generator` entity takes its name from
the element's text content and `uri`/`version` from the attributes. -/
def generatorFromSubtree (a : Attrs) (kids : List Node) : Generator :=
  { value := textOfForest kids
    uri := findAttr "uri" a
    version := findAttr "version" a }

/-- Modelled from the spec: a `Content` leaf resolves its text and the
content-model attribute read once from the start tag. -/
def contentFromSubtree (a : Attrs) (kids : List Node) : Content :=
  { value := textOfForest kids
    ctype := findAttr "type" a }

/-- Modelled from the spec: one dispatch step of the `Entry` builder of
section 4.2 (singular leaf fields overwrite, sequence fields append in
encounter order, unrecognized children are ignored). -/
def entryStep (e : Entry) : Node → Entry
  | .txt _ => e
  | .elem n a cs =>
    if n = "id" then { e with id := textOfForest cs }
    else if n = "title" then { e with title := textOfForest cs }
    else if n = "updated" then { e with updated := textOfForest cs }
    else if n = "author" then { e with authors := e.authors ++ [personFromSubtree a cs] }
    else if n = "category" then { e with categories := e.categories ++ [categoryFromSubtree a cs] }
    else if n = "contributor" then { e with contributors := e.contributors ++ [personFromSubtree a cs] }
    else if n = "link" then { e with links := e.links ++ [linkFromSubtree a cs] }
    else if n = "summary" then { e with summary := some (textOfForest cs) }
    else if n = "content" then { e with content := some (contentFromSubtree a cs) }
    else if n = "published" then { e with published := some (textOfForest cs) }
    else if n = "rights" then { e with rights := some (textOfForest cs) }
    else if n = "source" then { e with source := some (textOfForest cs) }
    else e

/-- Modelled from the spec: the `Entry` entity built from its child
subtrees by the uniform builder algorithm. -/
def entryFromSubtree (_ : Attrs) (kids : List Node) : Entry :=
  kids.foldl entryStep {}

/-- Modelled from the spec: `Person::from_xml` (not under `src/`)
consumes its element's subtree through the shared cursor and builds the
entity from it. -/
def Person.from_xml (fuel : Nat) (a : Attrs) (c : List Ev) :
    Except Error (Person × List Ev) :=
  match readSubtree fuel c with
  | .error e => .error e
  | .ok (kids, r) => .ok (personFromSubtree a kids, r)

/-- Modelled from the spec: `Category::from_xml` (not under `src/`). -/
def Category.from_xml (fuel : Nat) (a : Attrs) (c : List Ev) :
    Except Error (Category × List Ev) :=
  match readSubtree fuel c with
  | .error e => .error e
  | .ok (kids, r) => .ok (categoryFromSubtree a kids, r)

/-- Modelled from the spec: `Link::from_xml` (not under `src/`). -/
def Link.from_xml (fuel : Nat) (a : Attrs) (c : List Ev) :
    Except Error (Link × List Ev) :=
  match readSubtree fuel c with
  | .error e => .error e
  | .ok (kids, r) => .ok (linkFromSubtree a kids, r)

/-- Modelled from the spec: `Generator::from_xml` (not under `src/`). -/
def Generator.from_xml (fuel : Nat) (a : Attrs) (c : List Ev) :
    Except Error (Generator × List Ev) :=
  match readSubtree fuel c with
  | .error e => .error e
  | .ok (kids, r) => .ok (generatorFromSubtree a kids, r)

/-- Modelled from the spec: `Entry::from_xml` (not under `src/`). -/
def Entry.from_xml (fuel : Nat) (a : Attrs) (c : List Ev) :
    Except Error (Entry × List Ev) :=
  match readSubtree fuel c with
  | .error e => .error e
  | .ok (kids, r) => .ok (entryFromSubtree a kids, r)

/-- The element-start dispatch of `Feed::from_xml` (`src/feed.rs`
lines 498-531): one recognized child updates exactly one field of the
feed (singular leaf fields are overwritten with the text resolved by
`atom_text`, sequence fields are appended to with the nested builder's
entity, in encounter order), and an unrecognized tag is consumed up to
its matching end without producing any value (`reader.read_to_end`,
line 530).  Any error of the consumer is returned unchanged (the `?`
operators). -/
def feedChild (f : Nat) (feed : Feed) (n : String) (a : Attrs) (rest : List Ev) :
    Except Error (Feed × List Ev) :=
  if n = "id" then
    match atom_text f rest with
    | .error e => .error e
    | .ok (t, r) => .ok ({ feed with id := t.getD "" }, r)
  else if n = "title" then
    match atom_text f rest with
    | .error e => .error e
    | .ok (t, r) => .ok ({ feed with title := t.getD "" }, r)
  else if n = "updated" then
    match atom_text f rest with
    | .error e => .error e
    | .ok (t, r) => .ok ({ feed with updated := t.getD "" }, r)
  else if n = "author" then
    match Person.from_xml f a rest with
    | .error e => .error e
    | .ok (p, r) => .ok ({ feed with authors := feed.authors ++ [p] }, r)
  else if n = "category" then
    match Category.from_xml f a rest with
    | .error e => .error e
    | .ok (ct, r) => .ok ({ feed with categories := feed.categories ++ [ct] }, r)
  else if n = "contributor" then
    match Person.from_xml f a rest with
    | .error e => .error e
    | .ok (p, r) => .ok ({ feed with contributors := feed.contributors ++ [p] }, r)
  else if n = "generator" then
    match Generator.from_xml f a rest with
    | .error e => .error e
    | .ok (g, r) => .ok ({ feed with generator := some g }, r)
  else if n = "icon" then
    match atom_text f rest with
    | .error e => .error e
    | .ok (t, r) => .ok ({ feed with icon := t }, r)
  else if n = "link" then
    match Link.from_xml f a rest with
    | .error e => .error e
    | .ok (l, r) => .ok ({ feed with links := feed.links ++ [l] }, r)
  else if n = "logo" then
    match atom_text f rest with
    | .error e => .error e
    | .ok (t, r) => .ok ({ feed with logo := t }, r)
  else if n = "rights" then
    match atom_text f rest with
    | .error e => .error e
    | .ok (t, r) => .ok ({ feed with rights := t }, r)
  else if n = "subtitle" then
    match atom_text f rest with
    | .error e => .error e
    | .ok (t, r) => .ok ({ feed with subtitle := t }, r)
  else if n = "entry" then
    match Entry.from_xml f a rest with
    | .error e => .error e
    | .ok (en, r) => .ok ({ feed with entries := feed.entries ++ [en] }, r)
  else
    match readSubtree f rest with
    | .error e => .error e
    | .ok (_, r) => .ok (feed, r)

/-- The loop of `Feed::from_xml` (`src/feed.rs` lines 495-539): a
failing cursor read propagates the malformed-markup error (the `?` on
`read_event`, line 496), any element-end event breaks the loop and the
built feed is returned (line 533 and 541), end-of-stream yields the
truncated-document error (line 534), text and other events are skipped
(line 535), and an element start runs the dispatched arm (`feedChild`),
which consumes the child and updates the feed in place, after which the
loop continues on the remaining stream (the mutable `feed` and shared
`reader` of the source). -/
def feedLoop : Nat → Feed → List Ev → Except Error (Feed × List Ev)
  | 0, _, _ => .error .Eof
  | _ + 1, _, [] => .error .Eof
  | _ + 1, _, .Bad :: _ => .error .Xml
  | _ + 1, feed, .End _ :: rest => .ok (feed, rest)
  | f + 1, feed, .Text _ :: rest => feedLoop f feed rest
  | f + 1, feed, .Start n a :: rest =>
    match feedChild f feed n a rest with
    | .error e => .error e
    | .ok (feed', r) => feedLoop f feed' r

/-- `Feed::from_xml` (`src/feed.rs` line 491): build a feed from the
cursor positioned just inside the `feed` element; the start tag's own
attributes are ignored (the `_: Attributes` parameter).  The returned
list is the stream remaining after the feed's matching end, modelling
the reader position on return.  The fuel `c.length + 1` is always
sufficient since every loop iteration consumes at least one event. -/
def Feed.from_xml (_ : Attrs) (c : List Ev) : Except Error (Feed × List Ev) :=
  feedLoop (c.length + 1) {} c

/-- The body of `Feed::read_from` (`src/feed.rs` lines 61-84): loop
over events; the first element-start either delegates wholesale to the
Feed builder when its tag is `feed` (line 71) or fails with the
invalid-root error (line 73); end-of-stream breaks out and yields the
truncated-document error (lines 76, 83); all other events are skipped
(line 77); a failing cursor read propagates its error (the `?` on
`read_event`). -/
def readFromLoop : Nat → List Ev → Except Error Feed
  | 0, _ => .error .Eof
  | _ + 1, [] => .error .Eof
  | _ + 1, .Start n a :: rest =>
    if n = "feed" then
      match Feed.from_xml a rest with
      | .error e => .error e
      | .ok (fd, _) => .ok fd
    else .error .InvalidStartTag
  | _ + 1, .Bad :: _ => .error .Xml
  | f + 1, .End _ :: rest => readFromLoop f rest
  | f + 1, .Text _ :: rest => readFromLoop f rest

/-- `Feed::read_from` (`src/feed.rs` line 61), on the event stream the
cursor delivers for the input byte stream. -/
def Feed.read_from (c : List Ev) : Except Error Feed :=
  readFromLoop (c.length + 1) c

/-- `Feed::from_str` (`src/feed.rs` lines 545-551): forwards the
in-memory text value's bytes to `Feed::read_from`. -/
def Feed.from_str (c : List Ev) : Except Error Feed :=
  Feed.read_from c

/-- One recognized-child update of the feed, as a pure function of the
child's tag, attributes and consumed subtrees: the dispatch table of
`Feed::from_xml` (`src/feed.rs` lines 498-531) with each consumer's
value expressed over the consumed subtree. -/
def feedApply (feed : Feed) (n : String) (a : Attrs) (kids : List Node) : Feed :=
  if n = "id" then { feed with id := textOfForest kids }
  else if n = "title" then { feed with title := textOfForest kids }
  else if n = "updated" then { feed with updated := textOfForest kids }
  else if n = "author" then { feed with authors := feed.authors ++ [personFromSubtree a kids] }
  else if n = "category" then { feed with categories := feed.categories ++ [categoryFromSubtree a kids] }
  else if n = "contributor" then { feed with contributors := feed.contributors ++ [personFromSubtree a kids] }
  else if n = "generator" then { feed with generator := some (generatorFromSubtree a kids) }
  else if n = "icon" then { feed with icon := some (textOfForest kids) }
  else if n = "link" then { feed with links := feed.links ++ [linkFromSubtree a kids] }
  else if n = "logo" then { feed with logo := some (textOfForest kids) }
  else if n = "rights" then { feed with rights := some (textOfForest kids) }
  else if n = "subtitle" then { feed with subtitle := some (textOfForest kids) }
  else if n = "entry" then { feed with entries := feed.entries ++ [entryFromSubtree a kids] }
  else feed

/-- The feed update performed for one well-formed child subtree: text
runs between children are skipped, elements go through the dispatch
table. -/
def feedStep (feed : Feed) : Node → Feed
  | .txt _ => feed
  | .elem n a cs => feedApply feed n a cs

/-- The feed built from the content forest of a well-formed `feed`
element. -/
def feedOf (ns : List Node) : Feed :=
  ns.foldl feedStep {}

/-- Is the tag in the Feed builder's dispatch table
(`src/feed.rs` lines 499-529)? -/
def recognizedFeedTag (n : String) : Bool :=
  decide (n = "id") || decide (n = "title") || decide (n = "updated") ||
  decide (n = "author") || decide (n = "category") || decide (n = "contributor") ||
  decide (n = "generator") || decide (n = "icon") || decide (n = "link") ||
  decide (n = "logo") || decide (n = "rights") || decide (n = "subtitle") ||
  decide (n = "entry")

/-- Does the forest contain a top-level element with the given tag? -/
def hasElem (tag : String) : List Node → Bool
  | [] => false
  | .elem t _ _ :: ns => decide (t = tag) || hasElem tag ns
  | .txt _ :: ns => hasElem tag ns

/-- The top-level elements of a forest with the given tag, each built
by the given entity constructor, in document order. -/
def seqOf {α : Type} (tag : String) (build : Attrs → List Node → α) :
    List Node → List α
  | [] => []
  | .elem t a cs :: ns =>
    (if t = tag then [build a cs] else []) ++ seqOf tag build ns
  | .txt _ :: ns => seqOf tag build ns

/-- The number of top-level elements of a forest with the given tag. -/
def countElem (tag : String) : List Node → Nat
  | [] => 0
  | .elem t _ _ :: ns => (if t = tag then 1 else 0) + countElem tag ns
  | .txt _ :: ns => countElem tag ns

/-- Is the event one the entry-point loop silently skips (neither an
element start nor a failing read)? -/
def plainEv : Ev → Bool
  | .Start _ _ => false
  | .Bad => false
  | .End _ => true
  | .Text _ => true

/-- Splitting an equality between two appended decompositions of the
same list: the left prefix either stops strictly inside the first block
or covers it entirely. -/
lemma appendCases {α : Type} {a b c d : List α} (h : a ++ b = c ++ d) :
    (∃ r, r ≠ [] ∧ a ++ r = c) ∨ (∃ s, a = c ++ s ∧ d = s ++ b) := by
  rcases List.append_eq_append_iff.1 h with ⟨w, hc, hb⟩ | ⟨w, ha, hd⟩
  · cases w with
    | nil => exact Or.inr ⟨[], by simp [hc], by simp [hb]⟩
    | cons x w' => exact Or.inl ⟨x :: w', by simp, hc.symm⟩
  · exact Or.inr ⟨w, ha, hd⟩

/-- Consuming the events of a well-formed forest followed by the
enclosing element's end returns exactly that forest and leaves the
cursor just past the end, for any sufficient fuel. -/
lemma readSubtree_flattenF :
    ∀ (fuel : Nat) (ns : List Node) (e : String) (rest : List Ev),
      (flattenF ns ++ .End e :: rest).length < fuel →
      readSubtree fuel (flattenF ns ++ .End e :: rest) = .ok (ns, rest) := by
  intro fuel
  induction fuel with
  | zero => intro ns e rest h; omega
  | succ f ih =>
    intro ns e rest h
    cases ns with
    | nil => simp [flattenF, readSubtree]
    | cons hd ns' =>
      cases hd with
      | txt s =>
        have hT : flattenF (.txt s :: ns') ++ .End e :: rest
            = .Text s :: (flattenF ns' ++ .End e :: rest) := by
          simp [flattenF, flatten]
        rw [hT] at h ⊢
        have h' : (flattenF ns' ++ Ev.End e :: rest).length < f := by
          simp only [List.length_cons] at h; omega
        simp [readSubtree, ih ns' e rest h']
      | elem m a cs =>
        have hT : flattenF (.elem m a cs :: ns') ++ .End e :: rest
            = .Start m a :: (flattenF cs ++ .End m :: (flattenF ns' ++ .End e :: rest)) := by
          simp [flattenF, flatten]
        rw [hT] at h ⊢
        have h1 : (flattenF cs ++ Ev.End m :: (flattenF ns' ++ Ev.End e :: rest)).length < f := by
          simp only [List.length_cons] at h; omega
        have h2 : (flattenF ns' ++ Ev.End e :: rest).length < f := by
          simp only [List.length_cons, List.length_append] at h ⊢; omega
        simp [readSubtree, ih cs m _ h1, ih ns' e rest h2]

/-- Consuming any strict prefix of the events of a well-formed forest
followed by the enclosing end runs off the end of the stream and fails
with the truncated-document error. -/
lemma readSubtree_trunc :
    ∀ (fuel : Nat) (p q : List Ev) (ns : List Node) (e : String),
      p ++ q = flattenF ns ++ [.End e] → q ≠ [] → p.length < fuel →
      readSubtree fuel p = .error .Eof := by
  intro fuel
  induction fuel with
  | zero => intro p q ns e _ _ h; omega
  | succ f ih =>
    intro p q ns e hpq hq hlen
    cases ns with
    | nil =>
      cases p with
      | nil => simp [readSubtree]
      | cons x p' =>
        simp only [flattenF, List.nil_append, List.cons_append, List.cons.injEq] at hpq
        exact absurd (List.append_eq_nil.1 hpq.2).2 hq
    | cons hd ns' =>
      cases hd with
      | txt s =>
        have hT : flattenF (.txt s :: ns') ++ [Ev.End e]
            = .Text s :: (flattenF ns' ++ [.End e]) := by
          simp [flattenF, flatten]
        rw [hT] at hpq
        cases p with
        | nil => simp [readSubtree]
        | cons x p' =>
          simp only [List.cons_append, List.cons.injEq] at hpq
          obtain ⟨rfl, hpq'⟩ := hpq
          have h' : p'.length < f := by
            simp only [List.length_cons] at hlen; omega
          simp [readSubtree, ih p' q ns' e hpq' hq h']
      | elem m a cs =>
        have hT : flattenF (.elem m a cs :: ns') ++ [Ev.End e]
            = .Start m a :: ((flattenF cs ++ [.End m]) ++ (flattenF ns' ++ [.End e])) := by
          simp [flattenF, flatten]
        rw [hT] at hpq
        cases p with
        | nil => simp [readSubtree]
        | cons x p' =>
          simp only [List.cons_append, List.cons.injEq] at hpq
          obtain ⟨rfl, hpq'⟩ := hpq
          have hp'len : p'.length < f := by
            simp only [List.length_cons] at hlen; omega
          rcases appendCases hpq' with ⟨r, hr, hpr⟩ | ⟨s, hps, hqs⟩
          · have hpr' : p' ++ r = flattenF cs ++ [.End m] := hpr
            simp [readSubtree, ih p' r cs m hpr' hr hp'len]
          · have hps' : p' = flattenF cs ++ .End m :: s := by
              simpa using hps
            have hsub : readSubtree f p' = .ok (cs, s) := by
              rw [hps']
              exact readSubtree_flattenF f cs m s (by rw [← hps']; exact hp'len)
            have hslen : s.length < f := by
              have : s.length ≤ p'.length := by
                rw [hps']; simp only [List.length_append, List.length_cons]; omega
              omega
            simp [readSubtree, hsub, ih s q ns' e hqs.symm hq hslen]

/-- Every arm of the Feed builder's dispatch consumes exactly the
child's subtree and applies the pure per-child update: the loop on an
element start factors through `readSubtree` and `feedApply`. -/
lemma feedChild_eq (f : Nat) (feed : Feed) (n : String) (a : Attrs) (rest : List Ev) :
    feedChild f feed n a rest =
      match readSubtree f rest with
      | .error e => .error e
      | .ok (kids, r) => .ok (feedApply feed n a kids, r) := by
  cases hrs : readSubtree f rest with
  | error e =>
    simp only [feedChild, atom_text, Person.from_xml, Category.from_xml, Generator.from_xml,
      Link.from_xml, Entry.from_xml, hrs]
    simp only [ite_self]
  | ok pr =>
    obtain ⟨kids, r⟩ := pr
    simp only [feedChild, atom_text, Person.from_xml, Category.from_xml, Generator.from_xml,
      Link.from_xml, Entry.from_xml, hrs]
    simp only [feedApply, Option.getD_some,
      apply_ite (fun fd => (Except.ok (fd, r) : Except Error (Feed × List Ev)))]

/-- The Feed builder loop on an element start factors through
`readSubtree` and the pure dispatch `feedApply`. -/
lemma feedLoop_start (f : Nat) (feed : Feed) (n : String) (a : Attrs) (rest : List Ev) :
    feedLoop (f + 1) feed (.Start n a :: rest) =
      match readSubtree f rest with
      | .error e => .error e
      | .ok (kids, r) => feedLoop f (feedApply feed n a kids) r := by
  cases hrs : readSubtree f rest with
  | error e => simp [feedLoop, feedChild_eq, hrs]
  | ok pr =>
    obtain ⟨kids, r⟩ := pr
    simp [feedLoop, feedChild_eq, hrs]

/-- Running the Feed builder loop on the events of a well-formed
content forest followed by the element's end terminates exactly at that
end, returning the fold of the per-child updates and the untouched
remaining stream. -/
lemma feedLoop_flattenF :
    ∀ (fuel : Nat) (feed : Feed) (ns : List Node) (e : String) (rest : List Ev),
      (flattenF ns ++ .End e :: rest).length < fuel →
      feedLoop fuel feed (flattenF ns ++ .End e :: rest) = .ok (ns.foldl feedStep feed, rest) := by
  intro fuel
  induction fuel with
  | zero => intro _ _ _ _ h; omega
  | succ f ih =>
    intro feed ns e rest h
    cases ns with
    | nil => simp [flattenF, feedLoop]
    | cons hd ns' =>
      cases hd with
      | txt s =>
        have hT : flattenF (.txt s :: ns') ++ .End e :: rest
            = .Text s :: (flattenF ns' ++ .End e :: rest) := by
          simp [flattenF, flatten]
        rw [hT] at h ⊢
        have h' : (flattenF ns' ++ Ev.End e :: rest).length < f := by
          simp only [List.length_cons] at h; omega
        simp [feedLoop, ih feed ns' e rest h', feedStep]
      | elem m a cs =>
        have hT : flattenF (.elem m a cs :: ns') ++ .End e :: rest
            = .Start m a :: (flattenF cs ++ .End m :: (flattenF ns' ++ .End e :: rest)) := by
          simp [flattenF, flatten]
        rw [hT] at h ⊢
        have h1 : (flattenF cs ++ Ev.End m :: (flattenF ns' ++ Ev.End e :: rest)).length < f := by
          simp only [List.length_cons] at h; omega
        have h2 : (flattenF ns' ++ Ev.End e :: rest).length < f := by
          simp only [List.length_cons, List.length_append] at h ⊢; omega
        rw [feedLoop_start]
        rw [readSubtree_flattenF f cs m _ h1]
        simp [ih _ ns' e rest h2, feedStep]

/-- Running the Feed builder loop on any strict prefix of a well-formed
content forest followed by the element's end fails with the
truncated-document error. -/
lemma feedLoop_trunc :
    ∀ (fuel : Nat) (feed : Feed) (p q : List Ev) (ns : List Node) (e : String),
      p ++ q = flattenF ns ++ [.End e] → q ≠ [] → p.length < fuel →
      feedLoop fuel feed p = .error .Eof := by
  intro fuel
  induction fuel with
  | zero => intro _ p q ns e _ _ h; omega
  | succ f ih =>
    intro feed p q ns e hpq hq hlen
    cases ns with
    | nil =>
      cases p with
      | nil => simp [feedLoop]
      | cons x p' =>
        simp only [flattenF, List.nil_append, List.cons_append, List.cons.injEq] at hpq
        exact absurd (List.append_eq_nil.1 hpq.2).2 hq
    | cons hd ns' =>
      cases hd with
      | txt s =>
        have hT : flattenF (.txt s :: ns') ++ [Ev.End e]
            = .Text s :: (flattenF ns' ++ [.End e]) := by
          simp [flattenF, flatten]
        rw [hT] at hpq
        cases p with
        | nil => simp [feedLoop]
        | cons x p' =>
          simp only [List.cons_append, List.cons.injEq] at hpq
          obtain ⟨rfl, hpq'⟩ := hpq
          have h' : p'.length < f := by
            simp only [List.length_cons] at hlen; omega
          simp [feedLoop, ih feed p' q ns' e hpq' hq h']
      | elem m a cs =>
        have hT : flattenF (.elem m a cs :: ns') ++ [Ev.End e]
            = .Start m a :: ((flattenF cs ++ [.End m]) ++ (flattenF ns' ++ [.End e])) := by
          simp [flattenF, flatten]
        rw [hT] at hpq
        cases p with
        | nil => simp [feedLoop]
        | cons x p' =>
          simp only [List.cons_append, List.cons.injEq] at hpq
          obtain ⟨rfl, hpq'⟩ := hpq
          have hp'len : p'.length < f := by
            simp only [List.length_cons] at hlen; omega
          rw [feedLoop_start]
          rcases appendCases hpq' with ⟨r, hr, hpr⟩ | ⟨s, hps, hqs⟩
          · have hpr' : p' ++ r = flattenF cs ++ [.End m] := hpr
            simp [readSubtree_trunc f p' r cs m hpr' hr hp'len]
          · have hps' : p' = flattenF cs ++ .End m :: s := by
              simpa using hps
            have hsub : readSubtree f p' = .ok (cs, s) := by
              rw [hps']
              exact readSubtree_flattenF f cs m s (by rw [← hps']; exact hp'len)
            have hslen : s.length < f := by
              have : s.length ≤ p'.length := by
                rw [hps']; simp only [List.length_append, List.length_cons]; omega
              omega
            simp [hsub, ih _ s q ns' e hqs.symm hq hslen]

/-- The entry-point loop's result does not depend on the fuel, as long
as the fuel exceeds the stream length. -/
lemma readFromLoop_fuel :
    ∀ (c : List Ev) (f1 f2 : Nat), c.length < f1 → c.length < f2 →
      readFromLoop f1 c = readFromLoop f2 c := by
  intro c
  induction c with
  | nil =>
    intro f1 f2 h1 h2
    cases f1 with
    | zero => omega
    | succ g1 => cases f2 with
      | zero => omega
      | succ g2 => rfl
  | cons x c' ih =>
    intro f1 f2 h1 h2
    cases f1 with
    | zero => omega
    | succ g1 => cases f2 with
      | zero => omega
      | succ g2 =>
        cases x with
        | Start n a => rfl
        | Bad => rfl
        | End m =>
          simp only [readFromLoop]
          exact ih g1 g2 (by simp at h1; omega) (by simp at h2; omega)
        | Text s =>
          simp only [readFromLoop]
          exact ih g1 g2 (by simp at h1; omega) (by simp at h2; omega)

/-- The entry-point loop skips any prefix of events that are neither
element starts nor failing reads, without affecting the result. -/
lemma readFromLoop_skip :
    ∀ (pre c : List Ev) (fuel : Nat), (∀ ev ∈ pre, plainEv ev = true) →
      (pre ++ c).length < fuel →
      readFromLoop fuel (pre ++ c) = readFromLoop (c.length + 1) c := by
  intro pre
  induction pre with
  | nil =>
    intro c fuel _ h
    exact readFromLoop_fuel c fuel (c.length + 1) (by simpa using h) (by omega)
  | cons x pre' ih =>
    intro c fuel hp h
    have hx := hp x (by simp)
    cases fuel with
    | zero => omega
    | succ f =>
      have hlen : (pre' ++ c).length < f := by simp at h ⊢; omega
      have hp' : ∀ ev ∈ pre', plainEv ev = true := fun ev hev => hp ev (by simp [hev])
      cases x with
      | Start n a => simp [plainEv] at hx
      | Bad => simp [plainEv] at hx
      | End m =>
        simp only [List.cons_append, readFromLoop]
        exact ih c f hp' hlen
      | Text s =>
        simp only [List.cons_append, readFromLoop]
        exact ih c f hp' hlen

/-- A stream with no element start and no failing read runs the
entry-point loop off the end of the stream: truncated-document error. -/
lemma readFromLoop_plain :
    ∀ (c : List Ev) (fuel : Nat), (∀ ev ∈ c, plainEv ev = true) → c.length < fuel →
      readFromLoop fuel c = .error .Eof := by
  intro c
  induction c with
  | nil =>
    intro fuel _ h
    cases fuel with
    | zero => omega
    | succ g => rfl
  | cons x c' ih =>
    intro fuel hp h
    have hx := hp x (by simp)
    cases fuel with
    | zero => omega
    | succ f =>
      have hlen : c'.length < f := by simp at h; omega
      have hp' : ∀ ev ∈ c', plainEv ev = true := fun ev hev => hp ev (by simp [hev])
      cases x with
      | Start n a => simp [plainEv] at hx
      | Bad => simp [plainEv] at hx
      | End m => simpa only [readFromLoop] using ih f hp' hlen
      | Text s => simpa only [readFromLoop] using ih f hp' hlen

/-- Parsing the full event stream of a well-formed document whose root
element is `feed` succeeds and returns the fold of the per-child
updates over the root's content forest. -/
lemma read_from_doc (fa : Attrs) (ns : List Node) :
    Feed.read_from (flatten (.elem "feed" fa ns)) = .ok (feedOf ns) := by
  have hT : flatten (.elem "feed" fa ns)
      = .Start "feed" fa :: (flattenF ns ++ .End "feed" :: []) := by
    simp [flatten]
  unfold Feed.read_from
  rw [hT]
  simp only [readFromLoop, if_pos rfl]
  unfold Feed.from_xml
  rw [feedLoop_flattenF ((flattenF ns ++ Ev.End "feed" :: []).length + 1) {} ns "feed" []
    (by omega)]
  rfl

/-- A child with a tag other than `title` leaves the title field. -/
lemma feedApply_title_of_ne (feed : Feed) {n : String} (a : Attrs) (kids : List Node)
    (h : n ≠ "title") : (feedApply feed n a kids).title = feed.title := by
  simp [feedApply, apply_ite Feed.title, h]

/-- A `title` child overwrites the title field with its resolved text. -/
lemma feedApply_title_same (feed : Feed) (a : Attrs) (kids : List Node) :
    (feedApply feed "title" a kids).title = textOfForest kids := by
  simp [feedApply, apply_ite Feed.title]

/-- A child with a tag other than `id` leaves the id field. -/
lemma feedApply_id_of_ne (feed : Feed) {n : String} (a : Attrs) (kids : List Node)
    (h : n ≠ "id") : (feedApply feed n a kids).id = feed.id := by
  simp [feedApply, apply_ite Feed.id, h]

/-- An `id` child overwrites the id field with its resolved text. -/
lemma feedApply_id_same (feed : Feed) (a : Attrs) (kids : List Node) :
    (feedApply feed "id" a kids).id = textOfForest kids := by
  simp [feedApply, apply_ite Feed.id]

/-- A child with a tag other than `updated` leaves the updated field. -/
lemma feedApply_updated_of_ne (feed : Feed) {n : String} (a : Attrs) (kids : List Node)
    (h : n ≠ "updated") : (feedApply feed n a kids).updated = feed.updated := by
  simp [feedApply, apply_ite Feed.updated, h]

/-- An `updated` child overwrites the updated field. -/
lemma feedApply_updated_same (feed : Feed) (a : Attrs) (kids : List Node) :
    (feedApply feed "updated" a kids).updated = textOfForest kids := by
  simp [feedApply, apply_ite Feed.updated]

/-- A child with a tag other than `generator` leaves the generator. -/
lemma feedApply_generator_of_ne (feed : Feed) {n : String} (a : Attrs) (kids : List Node)
    (h : n ≠ "generator") : (feedApply feed n a kids).generator = feed.generator := by
  simp [feedApply, apply_ite Feed.generator, h]

/-- A `generator` child overwrites the generator field. -/
lemma feedApply_generator_same (feed : Feed) (a : Attrs) (kids : List Node) :
    (feedApply feed "generator" a kids).generator = some (generatorFromSubtree a kids) := by
  simp [feedApply, apply_ite Feed.generator]

/-- A child with a tag other than `icon` leaves the icon field. -/
lemma feedApply_icon_of_ne (feed : Feed) {n : String} (a : Attrs) (kids : List Node)
    (h : n ≠ "icon") : (feedApply feed n a kids).icon = feed.icon := by
  simp [feedApply, apply_ite Feed.icon, h]

/-- An `icon` child overwrites the icon field with its resolved text,
present even when empty. -/
lemma feedApply_icon_same (feed : Feed) (a : Attrs) (kids : List Node) :
    (feedApply feed "icon" a kids).icon = some (textOfForest kids) := by
  simp [feedApply, apply_ite Feed.icon]

/-- A child with a tag other than `logo` leaves the logo field. -/
lemma feedApply_logo_of_ne (feed : Feed) {n : String} (a : Attrs) (kids : List Node)
    (h : n ≠ "logo") : (feedApply feed n a kids).logo = feed.logo := by
  simp [feedApply, apply_ite Feed.logo, h]

/-- A `logo` child overwrites the logo field with its resolved text. -/
lemma feedApply_logo_same (feed : Feed) (a : Attrs) (kids : List Node) :
    (feedApply feed "logo" a kids).logo = some (textOfForest kids) := by
  simp [feedApply, apply_ite Feed.logo]

/-- A child with a tag other than `rights` leaves the rights field. -/
lemma feedApply_rights_of_ne (feed : Feed) {n : String} (a : Attrs) (kids : List Node)
    (h : n ≠ "rights") : (feedApply feed n a kids).rights = feed.rights := by
  simp [feedApply, apply_ite Feed.rights, h]

/-- A `rights` child overwrites the rights field. -/
lemma feedApply_rights_same (feed : Feed) (a : Attrs) (kids : List Node) :
    (feedApply feed "rights" a kids).rights = some (textOfForest kids) := by
  simp [feedApply, apply_ite Feed.rights]

/-- A child with a tag other than `subtitle` leaves the subtitle. -/
lemma feedApply_subtitle_of_ne (feed : Feed) {n : String} (a : Attrs) (kids : List Node)
    (h : n ≠ "subtitle") : (feedApply feed n a kids).subtitle = feed.subtitle := by
  simp [feedApply, apply_ite Feed.subtitle, h]

/-- A `subtitle` child overwrites the subtitle field. -/
lemma feedApply_subtitle_same (feed : Feed) (a : Attrs) (kids : List Node) :
    (feedApply feed "subtitle" a kids).subtitle = some (textOfForest kids) := by
  simp [feedApply, apply_ite Feed.subtitle]

/-- A child with a tag other than `author` leaves the authors list. -/
lemma feedApply_authors_of_ne (feed : Feed) {n : String} (a : Attrs) (kids : List Node)
    (h : n ≠ "author") : (feedApply feed n a kids).authors = feed.authors := by
  simp [feedApply, apply_ite Feed.authors, h]

/-- An `author` child appends the built person to the authors list. -/
lemma feedApply_authors_same (feed : Feed) (a : Attrs) (kids : List Node) :
    (feedApply feed "author" a kids).authors = feed.authors ++ [personFromSubtree a kids] := by
  simp [feedApply, apply_ite Feed.authors]

/-- A child with a tag other than `category` leaves the categories. -/
lemma feedApply_categories_of_ne (feed : Feed) {n : String} (a : Attrs) (kids : List Node)
    (h : n ≠ "category") : (feedApply feed n a kids).categories = feed.categories := by
  simp [feedApply, apply_ite Feed.categories, h]

/-- A `category` child appends the built category. -/
lemma feedApply_categories_same (feed : Feed) (a : Attrs) (kids : List Node) :
    (feedApply feed "category" a kids).categories
      = feed.categories ++ [categoryFromSubtree a kids] := by
  simp [feedApply, apply_ite Feed.categories]

/-- A child with a tag other than `contributor` leaves the
contributors list. -/
lemma feedApply_contributors_of_ne (feed : Feed) {n : String} (a : Attrs) (kids : List Node)
    (h : n ≠ "contributor") : (feedApply feed n a kids).contributors = feed.contributors := by
  simp [feedApply, apply_ite Feed.contributors, h]

/-- A `contributor` child appends the built person. -/
lemma feedApply_contributors_same (feed : Feed) (a : Attrs) (kids : List Node) :
    (feedApply feed "contributor" a kids).contributors
      = feed.contributors ++ [personFromSubtree a kids] := by
  simp [feedApply, apply_ite Feed.contributors]

/-- A child with a tag other than `link` leaves the links list. -/
lemma feedApply_links_of_ne (feed : Feed) {n : String} (a : Attrs) (kids : List Node)
    (h : n ≠ "link") : (feedApply feed n a kids).links = feed.links := by
  simp [feedApply, apply_ite Feed.links, h]

/-- A `link` child appends the built link. -/
lemma feedApply_links_same (feed : Feed) (a : Attrs) (kids : List Node) :
    (feedApply feed "link" a kids).links = feed.links ++ [linkFromSubtree a kids] := by
  simp [feedApply, apply_ite Feed.links]

/-- A child with a tag other than `entry` leaves the entries list. -/
lemma feedApply_entries_of_ne (feed : Feed) {n : String} (a : Attrs) (kids : List Node)
    (h : n ≠ "entry") : (feedApply feed n a kids).entries = feed.entries := by
  simp [feedApply, apply_ite Feed.entries, h]

/-- An `entry` child appends the built entry to the entries list. -/
lemma feedApply_entries_same (feed : Feed) (a : Attrs) (kids : List Node) :
    (feedApply feed "entry" a kids).entries = feed.entries ++ [entryFromSubtree a kids] := by
  simp [feedApply, apply_ite Feed.entries]

/-- A tag outside the dispatch table leaves the feed unchanged. -/
lemma feedApply_unrec (feed : Feed) {n : String} (a : Attrs) (kids : List Node)
    (h : recognizedFeedTag n = false) : feedApply feed n a kids = feed := by
  simp only [recognizedFeedTag, Bool.or_eq_false_iff, decide_eq_false_iff_not] at h
  obtain ⟨⟨⟨⟨⟨⟨⟨⟨⟨⟨⟨⟨h1, h2⟩, h3⟩, h4⟩, h5⟩, h6⟩, h7⟩, h8⟩, h9⟩, h10⟩, h11⟩, h12⟩, h13⟩ := h
  simp [feedApply, h1, h2, h3, h4, h5, h6, h7, h8, h9, h10, h11, h12, h13]

/-- Folding the per-child update over a forest without any element of a
given tag does not change any quantity that only that tag's update can
change. -/
lemma foldl_stable {α : Type} (g : Feed → α) (tag : String)
    (hg : ∀ (feed : Feed) (n : String) (a : Attrs) (kids : List Node),
      n ≠ tag → g (feedApply feed n a kids) = g feed) :
    ∀ (ns : List Node) (feed : Feed), hasElem tag ns = false →
      g (ns.foldl feedStep feed) = g feed := by
  intro ns
  induction ns with
  | nil => intro feed _; rfl
  | cons hd ns' ih =>
    intro feed hne
    cases hd with
    | txt s =>
      simp only [hasElem] at hne
      simpa only [List.foldl_cons, feedStep] using ih feed hne
    | elem t a cs =>
      simp only [hasElem, Bool.or_eq_false_iff, decide_eq_false_iff_not] at hne
      rw [List.foldl_cons]
      show g (ns'.foldl feedStep (feedApply feed t a cs)) = g feed
      rw [ih _ hne.2, hg feed t a cs hne.1]

/-- If after some prefix a singular child occurs and no later sibling
carries the same tag, the value taken from that (last) occurrence is
what remains in the built feed. -/
lemma feedOf_last {α : Type} (g : Feed → α) (tag : String) (v : Attrs → List Node → α)
    (hne : ∀ (feed : Feed) (n : String) (a : Attrs) (kids : List Node),
      n ≠ tag → g (feedApply feed n a kids) = g feed)
    (hsame : ∀ (feed : Feed) (a : Attrs) (kids : List Node),
      g (feedApply feed tag a kids) = v a kids)
    (ns1 ns2 : List Node) (a : Attrs) (cs : List Node)
    (h : hasElem tag ns2 = false) :
    g (feedOf (ns1 ++ .elem tag a cs :: ns2)) = v a cs := by
  unfold feedOf
  rw [List.foldl_append, List.foldl_cons]
  rw [foldl_stable g tag hne ns2 _ h]
  exact hsame _ a cs

/-- Folding the per-child update appends, for a sequence-valued field,
exactly the entities built from the matching elements in encounter
order. -/
lemma foldl_seq {α : Type} (g : Feed → List α) (tag : String)
    (build : Attrs → List Node → α)
    (hne : ∀ (feed : Feed) (n : String) (a : Attrs) (kids : List Node),
      n ≠ tag → g (feedApply feed n a kids) = g feed)
    (hsame : ∀ (feed : Feed) (a : Attrs) (kids : List Node),
      g (feedApply feed tag a kids) = g feed ++ [build a kids]) :
    ∀ (ns : List Node) (feed : Feed),
      g (ns.foldl feedStep feed) = g feed ++ seqOf tag build ns := by
  intro ns
  induction ns with
  | nil => intro feed; simp [seqOf]
  | cons hd ns' ih =>
    intro feed
    cases hd with
    | txt s => simpa only [List.foldl_cons, feedStep, seqOf] using ih feed
    | elem t a cs =>
      rw [List.foldl_cons]
      show g (ns'.foldl feedStep (feedApply feed t a cs)) = _
      rcases eq_or_ne t tag with rfl | hname
      · rw [ih (feedApply feed t a cs), hsame feed a cs]
        simp [seqOf]
      · rw [ih (feedApply feed t a cs), hne feed t a cs hname]
        simp [seqOf, hname]

/-- The sequence extracted from a forest has one element per matching
top-level element. -/
lemma seqOf_length {α : Type} (tag : String) (build : Attrs → List Node → α) :
    ∀ ns : List Node, (seqOf tag build ns).length = countElem tag ns := by
  intro ns
  induction ns with
  | nil => rfl
  | cons hd ns' ih =>
    cases hd with
    | txt s => simpa [seqOf, countElem] using ih
    | elem t a cs =>
      rcases eq_or_ne t tag with rfl | hname
      · simp [seqOf, countElem, ih]; omega
      · simp [seqOf, countElem, hname, ih]

/-- C1: for every input stream, `Feed::read_from` reads events until
the first element start; if that element's tag is not `feed` it fails
immediately with the invalid-root error, regardless of everything after
the start tag (no further event is consumed, no entity constructed);
if the tag is `feed` it returns exactly the result of the Feed builder
on the remaining stream. -/
theorem c1_root_dispatch (pre : List Ev) (n : String) (a : Attrs) (rest : List Ev)
    (hpre : ∀ ev ∈ pre, plainEv ev = true) :
    (n ≠ "feed" → Feed.read_from (pre ++ .Start n a :: rest) = .error .InvalidStartTag) ∧
    (n = "feed" → Feed.read_from (pre ++ .Start n a :: rest)
      = Except.map Prod.fst (Feed.from_xml a rest)) := by
  have hskip := readFromLoop_skip pre (.Start n a :: rest)
    ((pre ++ .Start n a :: rest).length + 1) hpre (by omega)
  constructor
  · intro hne
    unfold Feed.read_from
    rw [hskip]
    simp only [readFromLoop, if_neg hne]
  · intro heq
    subst heq
    unfold Feed.read_from
    rw [hskip]
    simp only [readFromLoop, if_pos rfl]
    cases hfx : Feed.from_xml a rest with
    | error e => simp [Except.map]
    | ok pr =>
      obtain ⟨fd, r⟩ := pr
      simp [Except.map]

/-- Witness for C1: a non-Atom root yields the invalid-root error at
once; a `feed` root delegates to the builder. -/
theorem c1_root_dispatch_witness :
    Feed.read_from [Ev.Text "x", Ev.Start "rss" [], Ev.Text "y"] = .error .InvalidStartTag ∧
    Feed.read_from [Ev.Start "feed" []] = Except.map Prod.fst (Feed.from_xml [] []) := by
  constructor
  · exact (c1_root_dispatch [Ev.Text "x"] "rss" [] [Ev.Text "y"] (by decide)).1 (by decide)
  · exact (c1_root_dispatch [] "feed" [] [] (by decide)).2 rfl

/-- C2: the truncated-document error arises exactly at end-of-stream:
a stream holding no element start and no failing read yields it (the
entry point saw no root at all); any strict truncation of a well-formed
feed document (cut before the final closing root tag) yields it while
the builder still awaits its matching end; and the complete document
does not yield it — the parse succeeds. -/
theorem c2_truncation :
    (∀ c : List Ev, (∀ ev ∈ c, plainEv ev = true) → Feed.read_from c = .error .Eof) ∧
    (∀ (fa : Attrs) (ns : List Node) (k : Nat),
      k < (flatten (.elem "feed" fa ns)).length →
      Feed.read_from ((flatten (.elem "feed" fa ns)).take k) = .error .Eof) ∧
    (∀ (fa : Attrs) (ns : List Node),
      Feed.read_from (flatten (.elem "feed" fa ns)) = .ok (feedOf ns)) := by
  refine ⟨?_, ?_, fun fa ns => read_from_doc fa ns⟩
  · intro c hc
    unfold Feed.read_from
    exact readFromLoop_plain c (c.length + 1) hc (by omega)
  · intro fa ns k hk
    have hT : flatten (.elem "feed" fa ns)
        = .Start "feed" fa :: (flattenF ns ++ [.End "feed"]) := by
      simp [flatten]
    rw [hT] at hk ⊢
    cases k with
    | zero => rfl
    | succ j =>
      rw [List.take_succ_cons]
      have hjlen : j < (flattenF ns ++ [Ev.End "feed"]).length := by
        simp only [List.length_cons] at hk; omega
      have hsplit : (flattenF ns ++ [Ev.End "feed"]).take j
          ++ (flattenF ns ++ [Ev.End "feed"]).drop j
          = flattenF ns ++ [Ev.End "feed"] := List.take_append_drop _ _
      have hqne : (flattenF ns ++ [Ev.End "feed"]).drop j ≠ [] := by
        intro hnil
        have hlen := List.length_drop j (flattenF ns ++ [Ev.End "feed"])
        rw [hnil] at hlen
        simp only [List.length_nil] at hlen
        omega
      have htr : Feed.from_xml fa ((flattenF ns ++ [Ev.End "feed"]).take j)
          = .error .Eof := by
        unfold Feed.from_xml
        exact feedLoop_trunc _ {} _ _ ns "feed" hsplit hqne (by omega)
      unfold Feed.read_from
      simp only [readFromLoop]
      simp [htr]

/-- Witness for C2: the spec's truncation scenario (missing closing
tags) and the empty stream both yield the truncated-document error. -/
theorem c2_truncation_witness :
    Feed.read_from ((flatten (.elem "feed" []
      [.elem "title" [] [.txt "T"], .elem "id" [] [.txt "X"]])).take 7) = .error .Eof ∧
    Feed.read_from [] = .error .Eof := by
  constructor
  · exact c2_truncation.2.1 [] [.elem "title" [] [.txt "T"], .elem "id" [] [.txt "X"]] 7
      (by decide)
  · exact c2_truncation.1 [] (by decide)

/-- C3: every singular feed-level field — title, id, updated,
generator, icon, logo, rights, subtitle — is overwritten on each
occurrence of its element, so in a well-formed document the parsed
field equals the value resolved from the last occurrence in document
order (the occurrence after which no sibling with that tag follows). -/
theorem c3_singular_last_wins (fa : Attrs) (ns1 ns2 : List Node) (a : Attrs) (cs : List Node) :
    (hasElem "title" ns2 = false →
      Except.map Feed.title (Feed.read_from (flatten (.elem "feed" fa
        (ns1 ++ .elem "title" a cs :: ns2)))) = .ok (textOfForest cs)) ∧
    (hasElem "id" ns2 = false →
      Except.map Feed.id (Feed.read_from (flatten (.elem "feed" fa
        (ns1 ++ .elem "id" a cs :: ns2)))) = .ok (textOfForest cs)) ∧
    (hasElem "updated" ns2 = false →
      Except.map Feed.updated (Feed.read_from (flatten (.elem "feed" fa
        (ns1 ++ .elem "updated" a cs :: ns2)))) = .ok (textOfForest cs)) ∧
    (hasElem "generator" ns2 = false →
      Except.map Feed.generator (Feed.read_from (flatten (.elem "feed" fa
        (ns1 ++ .elem "generator" a cs :: ns2))))
        = .ok (some (generatorFromSubtree a cs))) ∧
    (hasElem "icon" ns2 = false →
      Except.map Feed.icon (Feed.read_from (flatten (.elem "feed" fa
        (ns1 ++ .elem "icon" a cs :: ns2)))) = .ok (some (textOfForest cs))) ∧
    (hasElem "logo" ns2 = false →
      Except.map Feed.logo (Feed.read_from (flatten (.elem "feed" fa
        (ns1 ++ .elem "logo" a cs :: ns2)))) = .ok (some (textOfForest cs))) ∧
    (hasElem "rights" ns2 = false →
      Except.map Feed.rights (Feed.read_from (flatten (.elem "feed" fa
        (ns1 ++ .elem "rights" a cs :: ns2)))) = .ok (some (textOfForest cs))) ∧
    (hasElem "subtitle" ns2 = false →
      Except.map Feed.subtitle (Feed.read_from (flatten (.elem "feed" fa
        (ns1 ++ .elem "subtitle" a cs :: ns2)))) = .ok (some (textOfForest cs))) := by
  refine ⟨?_, ?_, ?_, ?_, ?_, ?_, ?_, ?_⟩ <;> intro h <;> rw [read_from_doc] <;>
    simp only [Except.map]
  · rw [feedOf_last Feed.title "title" (fun _ kids => textOfForest kids)
      (fun feed _ a2 kids hn => feedApply_title_of_ne feed a2 kids hn)
      (fun feed a2 kids => feedApply_title_same feed a2 kids) ns1 ns2 a cs h]
  · rw [feedOf_last Feed.id "id" (fun _ kids => textOfForest kids)
      (fun feed _ a2 kids hn => feedApply_id_of_ne feed a2 kids hn)
      (fun feed a2 kids => feedApply_id_same feed a2 kids) ns1 ns2 a cs h]
  · rw [feedOf_last Feed.updated "updated" (fun _ kids => textOfForest kids)
      (fun feed _ a2 kids hn => feedApply_updated_of_ne feed a2 kids hn)
      (fun feed a2 kids => feedApply_updated_same feed a2 kids) ns1 ns2 a cs h]
  · rw [feedOf_last Feed.generator "generator"
      (fun a2 kids => some (generatorFromSubtree a2 kids))
      (fun feed _ a2 kids hn => feedApply_generator_of_ne feed a2 kids hn)
      (fun feed a2 kids => feedApply_generator_same feed a2 kids) ns1 ns2 a cs h]
  · rw [feedOf_last Feed.icon "icon" (fun _ kids => some (textOfForest kids))
      (fun feed _ a2 kids hn => feedApply_icon_of_ne feed a2 kids hn)
      (fun feed a2 kids => feedApply_icon_same feed a2 kids) ns1 ns2 a cs h]
  · rw [feedOf_last Feed.logo "logo" (fun _ kids => some (textOfForest kids))
      (fun feed _ a2 kids hn => feedApply_logo_of_ne feed a2 kids hn)
      (fun feed a2 kids => feedApply_logo_same feed a2 kids) ns1 ns2 a cs h]
  · rw [feedOf_last Feed.rights "rights" (fun _ kids => some (textOfForest kids))
      (fun feed _ a2 kids hn => feedApply_rights_of_ne feed a2 kids hn)
      (fun feed a2 kids => feedApply_rights_same feed a2 kids) ns1 ns2 a cs h]
  · rw [feedOf_last Feed.subtitle "subtitle" (fun _ kids => some (textOfForest kids))
      (fun feed _ a2 kids hn => feedApply_subtitle_of_ne feed a2 kids hn)
      (fun feed a2 kids => feedApply_subtitle_same feed a2 kids) ns1 ns2 a cs h]

/-- Witness for C3: with two `title` children the parsed title is the
second one's text (the spec's scenario 4). -/
theorem c3_singular_last_wins_witness :
    Except.map Feed.title (Feed.read_from (flatten (.elem "feed" []
      ([.elem "title" [] [.txt "A"]] ++ .elem "title" [] [.txt "B"] :: []))))
      = .ok (textOfForest [.txt "B"]) := by
  exact (c3_singular_last_wins [] [.elem "title" [] [.txt "A"]] [] [] [.txt "B"]).1
    (by decide)

/-- C4: every sequence-valued feed field — authors, categories,
contributors, links, entries — holds exactly the entities built from
the matching child elements, in document encounter order (neither
deduplicated nor sorted), and its length equals the number of
occurrences of the corresponding element. -/
theorem c4_sequences (fa : Attrs) (ns : List Node) :
    (Except.map Feed.authors (Feed.read_from (flatten (.elem "feed" fa ns)))
        = .ok (seqOf "author" personFromSubtree ns)
      ∧ (seqOf "author" personFromSubtree ns).length = countElem "author" ns) ∧
    (Except.map Feed.categories (Feed.read_from (flatten (.elem "feed" fa ns)))
        = .ok (seqOf "category" categoryFromSubtree ns)
      ∧ (seqOf "category" categoryFromSubtree ns).length = countElem "category" ns) ∧
    (Except.map Feed.contributors (Feed.read_from (flatten (.elem "feed" fa ns)))
        = .ok (seqOf "contributor" personFromSubtree ns)
      ∧ (seqOf "contributor" personFromSubtree ns).length = countElem "contributor" ns) ∧
    (Except.map Feed.links (Feed.read_from (flatten (.elem "feed" fa ns)))
        = .ok (seqOf "link" linkFromSubtree ns)
      ∧ (seqOf "link" linkFromSubtree ns).length = countElem "link" ns) ∧
    (Except.map Feed.entries (Feed.read_from (flatten (.elem "feed" fa ns)))
        = .ok (seqOf "entry" entryFromSubtree ns)
      ∧ (seqOf "entry" entryFromSubtree ns).length = countElem "entry" ns) := by
  refine ⟨⟨?_, seqOf_length _ _ ns⟩, ⟨?_, seqOf_length _ _ ns⟩, ⟨?_, seqOf_length _ _ ns⟩,
    ⟨?_, seqOf_length _ _ ns⟩, ⟨?_, seqOf_length _ _ ns⟩⟩ <;>
    rw [read_from_doc] <;> simp only [Except.map]
  · rw [show feedOf ns = ns.foldl feedStep {} from rfl,
      foldl_seq Feed.authors "author" personFromSubtree
        (fun feed _ a2 kids hn => feedApply_authors_of_ne feed a2 kids hn)
        (fun feed a2 kids => feedApply_authors_same feed a2 kids) ns {}]
    rfl
  · rw [show feedOf ns = ns.foldl feedStep {} from rfl,
      foldl_seq Feed.categories "category" categoryFromSubtree
        (fun feed _ a2 kids hn => feedApply_categories_of_ne feed a2 kids hn)
        (fun feed a2 kids => feedApply_categories_same feed a2 kids) ns {}]
    rfl
  · rw [show feedOf ns = ns.foldl feedStep {} from rfl,
      foldl_seq Feed.contributors "contributor" personFromSubtree
        (fun feed _ a2 kids hn => feedApply_contributors_of_ne feed a2 kids hn)
        (fun feed a2 kids => feedApply_contributors_same feed a2 kids) ns {}]
    rfl
  · rw [show feedOf ns = ns.foldl feedStep {} from rfl,
      foldl_seq Feed.links "link" linkFromSubtree
        (fun feed _ a2 kids hn => feedApply_links_of_ne feed a2 kids hn)
        (fun feed a2 kids => feedApply_links_same feed a2 kids) ns {}]
    rfl
  · rw [show feedOf ns = ns.foldl feedStep {} from rfl,
      foldl_seq Feed.entries "entry" entryFromSubtree
        (fun feed _ a2 kids hn => feedApply_entries_of_ne feed a2 kids hn)
        (fun feed a2 kids => feedApply_entries_same feed a2 kids) ns {}]
    rfl

/-- C5: a feed-level child whose tag is outside the dispatch table —
with arbitrary attributes and arbitrarily deep content — is consumed
whole and ignored: the parse succeeds and returns exactly the feed of
the same document with that subtree removed. -/
theorem c5_unrecognized_skipped (fa : Attrs) (ns1 ns2 : List Node) (t : String) (a : Attrs)
    (cs : List Node) (h : recognizedFeedTag t = false) :
    Feed.read_from (flatten (.elem "feed" fa (ns1 ++ .elem t a cs :: ns2)))
      = .ok (feedOf (ns1 ++ ns2)) ∧
    Feed.read_from (flatten (.elem "feed" fa (ns1 ++ .elem t a cs :: ns2)))
      = Feed.read_from (flatten (.elem "feed" fa (ns1 ++ ns2))) := by
  have h1 : feedOf (ns1 ++ .elem t a cs :: ns2) = feedOf (ns1 ++ ns2) := by
    unfold feedOf
    rw [List.foldl_append, List.foldl_cons, List.foldl_append]
    show ns2.foldl feedStep (feedApply (ns1.foldl feedStep {}) t a cs) = _
    rw [feedApply_unrec _ a cs h]
  constructor
  · rw [read_from_doc, h1]
  · rw [read_from_doc, read_from_doc, h1]

/-- Witness for C5: the spec's extension-element scenario — a
`foo:ext` subtree with nested children vanishes from the result. -/
theorem c5_unrecognized_skipped_witness :
    Feed.read_from (flatten (.elem "feed" []
        ([.elem "title" [] [.txt "T"]] ++ .elem "foo:ext" []
          [.txt "ignored", .elem "deep" [] [.elem "deeper" [] []]] :: [.elem "id" [] [.txt "X"]])))
      = Feed.read_from (flatten (.elem "feed" []
        ([.elem "title" [] [.txt "T"]] ++ [.elem "id" [] [.txt "X"]]))) := by
  exact (c5_unrecognized_skipped [] [.elem "title" [] [.txt "T"]] [.elem "id" [] [.txt "X"]]
    "foo:ext" [] [.txt "ignored", .elem "deep" [] [.elem "deeper" [] []]] (by decide)).2

/-- C6: the Feed builder's loop terminates exactly upon the element
end matching the element it was invoked on: it consumes the entire
well-formed content forest (every nested element end inside it is
consumed by the dispatched child consumer, so the loop never sees one),
stops at the feed's own matching end, and leaves precisely the events
following that end unconsumed. -/
theorem c6_terminates_on_matching_end (a : Attrs) (ns : List Node) (rest : List Ev) :
    Feed.from_xml a (flattenF ns ++ .End "feed" :: rest) = .ok (feedOf ns, rest) := by
  unfold Feed.from_xml
  exact feedLoop_flattenF _ {} ns "feed" rest (by omega)

/-- C7: errors propagate unchanged: if the consumer dispatched for a
child start fails with an error, the Feed builder loop returns that
same error; a failing cursor read in the loop returns the
malformed-markup error; and when the builder fails, the entry point
returns the builder's error value untouched (never a feed). -/
theorem c7_error_propagation :
    (∀ (f : Nat) (feed : Feed) (n : String) (a : Attrs) (rest : List Ev) (err : Error),
      readSubtree f rest = .error err →
      feedLoop (f + 1) feed (.Start n a :: rest) = .error err) ∧
    (∀ (f : Nat) (feed : Feed) (c : List Ev),
      feedLoop (f + 1) feed (.Bad :: c) = .error .Xml) ∧
    (∀ (pre : List Ev) (a : Attrs) (rest : List Ev) (err : Error),
      (∀ ev ∈ pre, plainEv ev = true) →
      Feed.from_xml a rest = .error err →
      Feed.read_from (pre ++ .Start "feed" a :: rest) = .error err) := by
  refine ⟨?_, fun f feed c => rfl, ?_⟩
  · intro f feed n a rest err h
    rw [feedLoop_start]
    simp [h]
  · intro pre a rest err hpre hfx
    unfold Feed.read_from
    rw [readFromLoop_skip pre _ _ hpre (by omega)]
    simp only [readFromLoop]
    simp [hfx]

/-- Witness for C7: a child whose subtree is cut off propagates the
truncated-document error through the loop, and a failing cursor read
after the root start surfaces as the malformed-markup error. -/
theorem c7_error_propagation_witness :
    feedLoop 1 {} [Ev.Start "author" []] = .error .Eof ∧
    Feed.read_from [Ev.Start "feed" [], Ev.Bad] = .error .Xml := by
  constructor
  · exact c7_error_propagation.1 0 {} "author" [] [] .Eof rfl
  · exact c7_error_propagation.2.2 [] [] [Ev.Bad] .Xml (by decide) rfl

/-- C8: a present-but-empty optional leaf (icon, logo, rights or
subtitle with no content), when it is the (last) occurrence of its tag,
makes the parsed field present with the empty string — never absent. -/
theorem c8_empty_leaf_present (fa : Attrs) (ns1 ns2 : List Node) (a : Attrs) :
    (hasElem "icon" ns2 = false →
      Except.map Feed.icon (Feed.read_from (flatten (.elem "feed" fa
        (ns1 ++ .elem "icon" a [] :: ns2)))) = .ok (some "")) ∧
    (hasElem "logo" ns2 = false →
      Except.map Feed.logo (Feed.read_from (flatten (.elem "feed" fa
        (ns1 ++ .elem "logo" a [] :: ns2)))) = .ok (some "")) ∧
    (hasElem "rights" ns2 = false →
      Except.map Feed.rights (Feed.read_from (flatten (.elem "feed" fa
        (ns1 ++ .elem "rights" a [] :: ns2)))) = .ok (some "")) ∧
    (hasElem "subtitle" ns2 = false →
      Except.map Feed.subtitle (Feed.read_from (flatten (.elem "feed" fa
        (ns1 ++ .elem "subtitle" a [] :: ns2)))) = .ok (some "")) := by
  refine ⟨?_, ?_, ?_, ?_⟩ <;> intro h <;> rw [read_from_doc] <;> simp only [Except.map]
  · rw [feedOf_last Feed.icon "icon" (fun _ kids => some (textOfForest kids))
      (fun feed _ a2 kids hn => feedApply_icon_of_ne feed a2 kids hn)
      (fun feed a2 kids => feedApply_icon_same feed a2 kids) ns1 ns2 a [] h]
    rfl
  · rw [feedOf_last Feed.logo "logo" (fun _ kids => some (textOfForest kids))
      (fun feed _ a2 kids hn => feedApply_logo_of_ne feed a2 kids hn)
      (fun feed a2 kids => feedApply_logo_same feed a2 kids) ns1 ns2 a [] h]
    rfl
  · rw [feedOf_last Feed.rights "rights" (fun _ kids => some (textOfForest kids))
      (fun feed _ a2 kids hn => feedApply_rights_of_ne feed a2 kids hn)
      (fun feed a2 kids => feedApply_rights_same feed a2 kids) ns1 ns2 a [] h]
    rfl
  · rw [feedOf_last Feed.subtitle "subtitle" (fun _ kids => some (textOfForest kids))
      (fun feed _ a2 kids hn => feedApply_subtitle_of_ne feed a2 kids hn)
      (fun feed a2 kids => feedApply_subtitle_same feed a2 kids) ns1 ns2 a [] h]
    rfl

/-- Witness for C8: `<feed><icon></icon></feed>` parses to a feed whose
icon is present and empty. -/
theorem c8_empty_leaf_present_witness :
    Except.map Feed.icon (Feed.read_from (flatten (.elem "feed" []
      ([] ++ .elem "icon" [] [] :: [])))) = .ok (some "") := by
  exact (c8_empty_leaf_present [] [] [] []).1 (by decide)

/-- C9: `Feed::from_str` forwards the in-memory text value through the
very same path as `Feed::read_from` on its bytes and returns exactly
the same result. -/
theorem c9_from_str_delegates (c : List Ev) : Feed.from_str c = Feed.read_from c := rfl

/-- C10: the Feed builder never checks that the required elements
appeared: parsing a well-formed feed document always succeeds, and when
title, id or updated never occurs the corresponding field keeps the
empty-string default of `Feed::default`. -/
theorem c10_missing_required_default (fa : Attrs) (ns : List Node) :
    Feed.read_from (flatten (.elem "feed" fa ns)) = .ok (feedOf ns) ∧
    (hasElem "title" ns = false → (feedOf ns).title = "") ∧
    (hasElem "id" ns = false → (feedOf ns).id = "") ∧
    (hasElem "updated" ns = false → (feedOf ns).updated = "") := by
  refine ⟨read_from_doc fa ns, ?_, ?_, ?_⟩ <;> intro h
  · exact foldl_stable Feed.title "title"
      (fun feed _ a2 kids hn => feedApply_title_of_ne feed a2 kids hn) ns {} h
  · exact foldl_stable Feed.id "id"
      (fun feed _ a2 kids hn => feedApply_id_of_ne feed a2 kids hn) ns {} h
  · exact foldl_stable Feed.updated "updated"
      (fun feed _ a2 kids hn => feedApply_updated_of_ne feed a2 kids hn) ns {} h

/-- Witness for C10: a feed holding only an entry parses successfully
with empty title, id and updated. -/
theorem c10_missing_required_default_witness :
    Feed.read_from (flatten (.elem "feed" [] [.elem "entry" [] []]))
      = .ok (feedOf [.elem "entry" [] []]) ∧
    (feedOf [.elem "entry" [] []]).title = "" ∧
    (feedOf [.elem "entry" [] []]).id = "" ∧
    (feedOf [.elem "entry" [] []]).updated = "" := by
  obtain ⟨h1, h2, h3, h4⟩ := c10_missing_required_default [] [.elem "entry" [] []]
  exact ⟨h1, h2 (by decide), h3 (by decide), h4 (by decide)⟩

end Atom
